import Mathlib

/-!
Verification of the libmeminfo memory-descriptor parsing and aggregation
engine.  The repository ships only the test suite; the parsing library
itself (procmeminfo / sysmeminfo / androidprocheaps) is not present, so
the definitions below are modelled from the specification of the engine,
with the test suite fixing the concrete input/output pairs.  Files are
modelled as lists of text lines; all parsing is done over lists of
characters by structural recursion so that every definition evaluates
inside the kernel.
-/

set_option maxRecDepth 100000

namespace Meminfo

/-- Modelled from the spec: decimal digit test for the numeric fields of
the kernel descriptor grammars. -/
def isDigitChar (c : Char) : Bool := 48 ≤ c.toNat && c.toNat ≤ 57

/-- Value of a decimal digit character. -/
def digitVal (c : Char) : Nat := c.toNat - 48

/-- Accumulate a decimal numeral left to right. -/
def natFromDigits (cs : List Char) : Nat := cs.foldl (fun a c => a * 10 + digitVal c) 0

/-- Modelled from the spec: parse a non-empty all-digit token as a decimal
natural number; anything else is a numeric parsing failure. -/
def parseDecNat (cs : List Char) : Option Nat :=
  if !cs.isEmpty && cs.all isDigitChar then some (natFromDigits cs) else none

/-- Value of one hexadecimal digit character, if it is one. -/
def hexVal (c : Char) : Option Nat :=
  if 48 ≤ c.toNat && c.toNat ≤ 57 then some (c.toNat - 48)
  else if 97 ≤ c.toNat && c.toNat ≤ 102 then some (c.toNat - 87)
  else if 65 ≤ c.toNat && c.toNat ≤ 70 then some (c.toNat - 55)
  else none

/-- Modelled from the spec: parse a non-empty hexadecimal token (as used
for the addresses and offsets of a VMA header line). -/
def parseHexNat (cs : List Char) : Option Nat :=
  if cs.isEmpty then none
  else cs.foldl (fun acc c => acc.bind (fun a => (hexVal c).map (fun v => a * 16 + v))) (some 0)

/-- Drop leading blanks of a line. -/
def dropSpaces (cs : List Char) : List Char := cs.dropWhile (fun c => c == ' ')

/-- First whitespace-separated token of a line. -/
def takeTok (cs : List Char) : List Char := (dropSpaces cs).takeWhile (fun c => c != ' ')

/-- Rest of the line after its first whitespace-separated token. -/
def restAfterTok (cs : List Char) : List Char := (dropSpaces cs).dropWhile (fun c => c != ' ')

/-- Split a line into whitespace-separated tokens (accumulator form,
structural in the character list). -/
def tokensAux : List Char → List Char → List (List Char)
  | [], cur => if cur.isEmpty then [] else [cur.reverse]
  | c :: cs, cur =>
    if c == ' ' then
      if cur.isEmpty then tokensAux cs [] else cur.reverse :: tokensAux cs []
    else tokensAux cs (c :: cur)

/-- All whitespace-separated tokens of a line. -/
def tokens (cs : List Char) : List (List Char) := tokensAux cs []

/-- Modelled from the spec: the MemUsage tally, all fields unsigned
integers in kilobytes.  A freshly constructed MemUsage is all-zero. -/
structure MemUsage where
  vss : Nat := 0
  rss : Nat := 0
  pss : Nat := 0
  uss : Nat := 0
  swap : Nat := 0
  swap_pss : Nat := 0
  private_clean : Nat := 0
  private_dirty : Nat := 0
  shared_clean : Nat := 0
  shared_dirty : Nat := 0
  deriving DecidableEq, Repr

/-- The all-zero MemUsage of a freshly constructed tally. -/
def emptyUsage : MemUsage := {}

/-- Modelled from the spec: the VMA descriptor holding one MemUsage.
The source field named end is spelled endAddr here. -/
structure Vma where
  start : Nat
  endAddr : Nat
  offset : Nat
  flags : Nat
  is_shared : Bool
  inode : Nat
  name : String
  usage : MemUsage
  deriving DecidableEq, Repr

/-- Modelled from the spec: decode the 4-character permission string of a
range-format header line, position 4 being s (shared) or p (private);
flags use the PROT_READ = 1, PROT_WRITE = 2, PROT_EXEC = 4 convention. -/
def parsePerms (cs : List Char) : Option (Nat × Bool) :=
  match cs with
  | [r, w, x, s] =>
    if (r == 'r' || r == '-') && (w == 'w' || w == '-') && (x == 'x' || x == '-')
        && (s == 's' || s == 'p') then
      some ((if r == 'r' then 1 else 0) + (if w == 'w' then 2 else 0) +
            (if x == 'x' then 4 else 0), s == 's')
    else none
  | _ => none

/-- Split an address-range token at its dash. -/
def splitDash (cs : List Char) : Option (List Char × List Char) :=
  let a := cs.takeWhile (fun c => c != '-')
  match cs.dropWhile (fun c => c != '-') with
  | '-' :: rest => some (a, rest)
  | _ => none

/-- Modelled from the spec: parse one range-format header line
start-end perms offset dev:dev inode [pathname], hex addresses, optional
pathname possibly containing spaces; usage fields are left zero. -/
def parseVmaHeader (cs : List Char) : Option Vma :=
  (splitDash (takeTok cs)).bind (fun se =>
  (parseHexNat se.1).bind (fun startA =>
  (parseHexNat se.2).bind (fun endA =>
  let r0 := restAfterTok cs
  (parsePerms (takeTok r0)).bind (fun fs =>
  let r1 := restAfterTok r0
  (parseHexNat (takeTok r1)).bind (fun off =>
  let r2 := restAfterTok r1
  if (takeTok r2).isEmpty then none else
  let r3 := restAfterTok r2
  (parseDecNat (takeTok r3)).map (fun ino =>
  { start := startA, endAddr := endA, offset := off, flags := fs.1,
    is_shared := fs.2, inode := ino,
    name := String.mk (dropSpaces (restAfterTok r3)), usage := {} }))))))

/-- The detail keys of the extended format that map to MemUsage fields;
size is recognized only where usage mode requires VSS. -/
inductive SmapsKey where
  | rss | pss | shared_clean | shared_dirty | private_clean | private_dirty
  | swap | swapPss | size
  deriving DecidableEq, Repr

/-- Modelled from the spec: recognize the leading key token (colon
included) of an extended-format detail line. -/
def keyOfTok (t : List Char) : Option SmapsKey :=
  if t = "Rss:".data then some .rss
  else if t = "Pss:".data then some .pss
  else if t = "Shared_Clean:".data then some .shared_clean
  else if t = "Shared_Dirty:".data then some .shared_dirty
  else if t = "Private_Clean:".data then some .private_clean
  else if t = "Private_Dirty:".data then some .private_dirty
  else if t = "Swap:".data then some .swap
  else if t = "SwapPss:".data then some .swapPss
  else if t = "Size:".data then some .size
  else none

/-- Modelled from the spec: parse one extended-format detail line
Key: int kB into its recognized key and kilobyte value; unrecognized
keys and header lines yield none and are ignored. -/
def parseSmapsField (cs : List Char) : Option (SmapsKey × Nat) :=
  (keyOfTok (takeTok cs)).bind (fun k =>
    (parseDecNat (takeTok (restAfterTok cs))).map (fun v => (k, v)))

/-- Add one recognized detail value into the aggregate tally; the
aggregate parse ignores Size. -/
def accumAggregate (mu : MemUsage) (k : SmapsKey) (v : Nat) : MemUsage :=
  match k with
  | .rss => { mu with rss := mu.rss + v }
  | .pss => { mu with pss := mu.pss + v }
  | .shared_clean => { mu with shared_clean := mu.shared_clean + v }
  | .shared_dirty => { mu with shared_dirty := mu.shared_dirty + v }
  | .private_clean => { mu with private_clean := mu.private_clean + v }
  | .private_dirty => { mu with private_dirty := mu.private_dirty + v }
  | .swap => { mu with swap := mu.swap + v }
  | .swapPss => { mu with swap_pss := mu.swap_pss + v }
  | .size => mu

/-- One line of the aggregate extended parse: recognized detail lines
accumulate, all other lines are skipped. -/
def smapsAggStep (mu : MemUsage) (line : String) : MemUsage :=
  match parseSmapsField line.data with
  | some (k, v) => accumAggregate mu k v
  | none => mu

/-- Modelled from the spec: the aggregate extended-format parse
(SmapsOrRollupFromFile, whose implementation is absent from the
repository): scan every line, accumulate the recognized detail values
into one MemUsage, and derive uss as private_clean + private_dirty. -/
def SmapsOrRollupFromLines (lines : List String) : MemUsage :=
  let mu := lines.foldl smapsAggStep {}
  { mu with uss := mu.private_clean + mu.private_dirty }

/-- Add one recognized detail value into the usage of one VMA; in
per-VMA mode Size feeds VSS. -/
def vmaAccumField (v : Vma) (k : SmapsKey) (n : Nat) : Vma :=
  match k with
  | .size => { v with usage := { v.usage with vss := v.usage.vss + n } }
  | _ => { v with usage := accumAggregate v.usage k n }

/-- Derive the USS of a completed VMA record from its private fields. -/
def finalizeVma (v : Vma) : Vma :=
  { v with usage :=
      { v.usage with uss := v.usage.private_clean + v.usage.private_dirty } }

/-- One line of the per-VMA extended parse: a header line emits the
record under construction and starts a new one; a recognized detail line
enriches the record under construction; anything else is skipped. -/
def vmaStep : Option Vma × List Vma → String → Option Vma × List Vma
  | (cur, acc), line =>
    match parseVmaHeader line.data with
    | some v =>
      match cur with
      | some c => (some v, acc ++ [finalizeVma c])
      | none => (some v, acc)
    | none =>
      match parseSmapsField line.data with
      | some (k, n) =>
        match cur with
        | some c => (some (vmaAccumField c k n), acc)
        | none => (none, acc)
      | none => (cur, acc)

/-- Modelled from the spec: the per-VMA extended-format enumeration
(ForEachVmaFromFile, whose implementation is absent from the
repository): one record per header line, enriched by its detail lines,
the last record emitted at end of file. -/
def ForEachVmaFromLines (lines : List String) : List Vma :=
  match lines.foldl vmaStep (none, []) with
  | (some c, acc) => acc ++ [finalizeVma c]
  | (none, acc) => acc

/-- The collect callback of Smaps: on x86-64 a record named vsyscall is
skipped, every other record is appended. -/
def smapsCollectStep (isX86_64 : Bool) (acc : List Vma) (v : Vma) : List Vma :=
  if isX86_64 && v.name == "[vsyscall]" then acc else acc ++ [v]

/-- Modelled from the spec and the test suite: Smaps (implementation
absent from the repository) enumerates the extended-format records
through the collect callback, which on x86-64 omits the vsyscall
record. -/
def SmapsFromLines (isX86_64 : Bool) (lines : List String) : List Vma :=
  (ForEachVmaFromLines lines).foldl (smapsCollectStep isX86_64) []

/-- Fieldwise addition of two usage tallies. -/
def addUsage (a b : MemUsage) : MemUsage :=
  { vss := a.vss + b.vss, rss := a.rss + b.rss, pss := a.pss + b.pss,
    uss := a.uss + b.uss, swap := a.swap + b.swap,
    swap_pss := a.swap_pss + b.swap_pss,
    private_clean := a.private_clean + b.private_clean,
    private_dirty := a.private_dirty + b.private_dirty,
    shared_clean := a.shared_clean + b.shared_clean,
    shared_dirty := a.shared_dirty + b.shared_dirty }

/-- Modelled from the spec: Smaps with aggregation enabled accumulates
each collected record into the process-level aggregate. -/
def SmapsUsageFromLines (isX86_64 : Bool) (lines : List String) : MemUsage :=
  (SmapsFromLines isX86_64 lines).foldl (fun mu v => addUsage mu v.usage) {}

/-- Modelled from the spec: the reduced Pss-only scan recognizes exactly
the lines whose leading token is the Pss key. -/
def pssLineValue (cs : List Char) : Option Nat :=
  if takeTok cs = "Pss:".data then parseDecNat (takeTok (restAfterTok cs)) else none

/-- Modelled from the spec: the reduced parser
(SmapsOrRollupPssFromFile, whose implementation is absent from the
repository) sums the values of all Pss detail lines, ignoring everything
else. -/
def SmapsOrRollupPssFromLines (lines : List String) : Nat :=
  lines.foldl (fun acc l =>
    match pssLineValue l.data with
    | some v => acc + v
    | none => acc) 0

/-- Modelled from the spec: extract the page count of one vmallocinfo
token of the shape pages=N. -/
def pagesTokValue (t : List Char) : Option Nat :=
  if List.isPrefixOf "pages=".data t then parseDecNat (t.drop 6) else none

/-- The explicit pages=N token of a vmallocinfo line, if any. -/
def linePages (cs : List Char) : Option Nat := (tokens cs).findSome? pagesTokValue

/-- Modelled from the spec: ReadVmallocInfo (implementation absent from
the repository) sums pages times the page size over the lines carrying
an explicit pages=N token; every other line contributes nothing. -/
def ReadVmallocInfoLines (lines : List String) (pageSize : Nat) : Nat :=
  lines.foldl (fun acc l =>
    match linePages l.data with
    | some n => acc + n * pageSize
    | none => acc) 0

/-- Modelled from the spec: one live exported buffer of the
buffer-sharing heap statistics tree: its exporter_name file and its size
file in bytes. -/
structure DmabufBuffer where
  exporter_name : String
  size : Nat
  deriving DecidableEq, Repr

/-- Accumulate one heap of ReadDmabufHeapTotalExportedKb: the kilobyte
sizes of the buffers naming this heap as exporter. -/
def dmabufHeapStep (buffers : List DmabufBuffer) (acc : Nat) (heapName : String) : Nat :=
  buffers.foldl (fun a b =>
    if b.exporter_name == heapName then a + b.size / 1024 else a) acc

/-- Modelled from the spec: ReadDmabufHeapTotalExportedKb
(implementation absent from the repository), over the heap names taken
from the heap-root directory and the per-buffer statistics entries. -/
def ReadDmabufHeapTotalExportedKb (heapNames : List String)
    (buffers : List DmabufBuffer) : Nat :=
  heapNames.foldl (dmabufHeapStep buffers) 0

/-- Modelled from the spec: PageMap (implementation absent from the
repository) over the pid's page-table-entry file, modelled as the list
of its per-page entries: compute the page count of the VMA range, read
that many entries starting at the page index of the VMA start, and fail
on a short read. -/
def pageMapFromFile (pageSize : Nat) (file : List Nat) (v : Vma) : Option (List Nat) :=
  let idx := v.start / pageSize
  let cnt := (v.endAddr - v.start) / pageSize
  let slice := (file.drop idx).take cnt
  if slice.length = cnt then some slice else none

/-- Modelled from the spec: the per-process facade state; maps_, the
regular aggregate usage_, the working-set aggregate wss_, and the swap
offset list, with the mode chosen at construction. -/
structure ProcMemInfo where
  pid : Nat
  get_wss : Bool
  maps_ : List Vma
  usage_ : MemUsage
  wss_ : MemUsage
  swap_offsets_ : List Nat
  deriving Repr

/-- Modelled from the spec: construction of the facade: both aggregates
and both lists start empty. -/
def ProcMemInfo.construct (pid : Nat) (get_wss : Bool) : ProcMemInfo :=
  { pid := pid, get_wss := get_wss, maps_ := [], usage_ := {}, wss_ := {},
    swap_offsets_ := [] }

/-- Accessor of the regular aggregate. -/
def ProcMemInfo.Usage (p : ProcMemInfo) : MemUsage := p.usage_

/-- Accessor of the working-set aggregate. -/
def ProcMemInfo.Wss (p : ProcMemInfo) : MemUsage := p.wss_

/-- Accessor of the swap offsets list. -/
def ProcMemInfo.SwapOffsets (p : ProcMemInfo) : List Nat := p.swap_offsets_

/-- Modelled from the spec: one usage-filling pass over a fresh read of
the kernel file; it re-derives and overwrites the aggregate of the
active mode only, leaving the inactive view untouched. -/
def ProcMemInfo.getUsageStats (p : ProcMemInfo) (lines : List String) : ProcMemInfo :=
  if p.get_wss then { p with wss_ := SmapsOrRollupFromLines lines }
  else { p with usage_ := SmapsOrRollupFromLines lines }

/-- Modelled from the spec: the per-bucket tally of the heap classifier. -/
structure AndroidHeapStats where
  pss : Nat := 0
  swappablePss : Nat := 0
  rss : Nat := 0
  privateDirty : Nat := 0
  sharedDirty : Nat := 0
  privateClean : Nat := 0
  sharedClean : Nat := 0
  swappedOut : Nat := 0
  swappedOutPss : Nat := 0
  deriving DecidableEq, Repr

/-- The all-zero bucket tally. -/
def emptyHeapStats : AndroidHeapStats := {}

/-- Accumulate the usage of one classified VMA into a bucket tally;
swappablePss counts the PSS of the swappable categories only, swappedOut
comes from the Swap field and swappedOutPss from the SwapPss field. -/
def bucketAdd (s : AndroidHeapStats) (swappable : Bool) (u : MemUsage) : AndroidHeapStats :=
  { pss := s.pss + u.pss,
    swappablePss := s.swappablePss + (if swappable then u.pss else 0),
    rss := s.rss + u.rss,
    privateDirty := s.privateDirty + u.private_dirty,
    sharedDirty := s.sharedDirty + u.shared_dirty,
    privateClean := s.privateClean + u.private_clean,
    sharedClean := s.sharedClean + u.shared_clean,
    swappedOut := s.swappedOut + u.swap,
    swappedOutPss := s.swappedOutPss + u.swap_pss }

/-- Whether a line is a SwapPss detail line. -/
def isSwapPssLine (l : String) : Bool := takeTok l.data == "SwapPss:".data

/-- Whether the extended-format input carries the SwapPss key at all. -/
def hasSwapPssKey (lines : List String) : Bool := lines.any isSwapPssLine

/-- Modelled from the spec: ExtractAndroidHeapStatsFromFile
(implementation absent from the repository).  The name-pattern table is
abstracted as the classification function and the swappable-category
predicate; each parsed VMA is accumulated into the bucket its name
classifies to.  When the input has no SwapPss key, every bucket falls
back to swappedOutPss = swappedOut; the second component reports whether
the SwapPss key was found. -/
def ExtractAndroidHeapStatsFromLines (classify : String → Nat)
    (swappable : String → Bool) (lines : List String) :
    (Nat → AndroidHeapStats) × Bool :=
  let found := hasSwapPssKey lines
  let buckets := (ForEachVmaFromLines lines).foldl
    (fun b v => fun j =>
      if j = classify v.name then bucketAdd (b j) (swappable v.name) v.usage
      else b j)
    (fun _ => emptyHeapStats)
  (if found then buckets
   else fun j => { buckets j with swappedOutPss := (buckets j).swappedOut },
   found)

/-- One line of the global tag scan: if the line's leading tag token
(colon included) is in the caller-supplied ordered tag set, store its
value at the tag's ordinal position; unmatched lines are skipped, later
occurrences overwrite earlier ones. -/
def readMemInfoStep (tags : List String) (vals : List Nat) (line : String) : List Nat :=
  match List.findIdx? (fun tag => tag.data == takeTok line.data) tags with
  | some i => vals.set i ((parseDecNat (takeTok (restAfterTok line.data))).getD 0)
  | none => vals

/-- Modelled from the spec: ReadMemInfo (implementation absent from the
repository): a single-pass line scan into a positional value array
starting from all zeros; content never fails, an empty file yields the
all-zero array. -/
def ReadMemInfoLines (tags : List String) (lines : List String) : Bool × List Nat :=
  (true, lines.foldl (readMemInfoStep tags) (List.replicate tags.length 0))

/-- The smaps_rollup content of the SmapsOrRollupTest test. -/
def rollupLines : List String :=
  ["12c00000-7fe859e000 ---p 00000000 00:00 0                                [rollup]",
   "Rss:              331908 kB",
   "Pss:              202052 kB",
   "Shared_Clean:     158492 kB",
   "Shared_Dirty:      18928 kB",
   "Private_Clean:     90472 kB",
   "Private_Dirty:     64016 kB",
   "Referenced:       318700 kB",
   "Anonymous:         81984 kB",
   "AnonHugePages:         0 kB",
   "Shared_Hugetlb:        0 kB",
   "Private_Hugetlb:       0 kB",
   "Swap:               5344 kB",
   "SwapPss:             442 kB",
   "Locked:          1523537 kB"]

/-- The single-VMA smaps content of the SmapsOrRollupSmapsTest and
ExtractAndroidHeapStatsFromFileTest tests. -/
def smapsSingleLines : List String :=
  ["12c00000-13440000 rw-p 00000000 00:00 0                                  [anon:dalvik-main space (region space)]",
   "Name:           [anon:dalvik-main space (region space)]",
   "Size:               8448 kB",
   "KernelPageSize:        4 kB",
   "MMUPageSize:           4 kB",
   "Rss:                2652 kB",
   "Pss:                2652 kB",
   "Shared_Clean:        840 kB",
   "Shared_Dirty:         40 kB",
   "Private_Clean:        84 kB",
   "Private_Dirty:      2652 kB",
   "Referenced:         2652 kB",
   "Anonymous:          2652 kB",
   "AnonHugePages:         0 kB",
   "ShmemPmdMapped:        0 kB",
   "Shared_Hugetlb:        0 kB",
   "Private_Hugetlb:       0 kB",
   "Swap:                102 kB",
   "SwapPss:              70 kB",
   "Locked:             2652 kB",
   "VmFlags: rd wr mr mw me ac "]

/-- The same single-VMA smaps content with the optional SwapPss key
absent, as produced by an older kernel. -/
def smapsNoSwapPssLines : List String :=
  ["12c00000-13440000 rw-p 00000000 00:00 0                                  [anon:dalvik-main space (region space)]",
   "Name:           [anon:dalvik-main space (region space)]",
   "Size:               8448 kB",
   "Rss:                2652 kB",
   "Pss:                2652 kB",
   "Shared_Clean:        840 kB",
   "Shared_Dirty:         40 kB",
   "Private_Clean:        84 kB",
   "Private_Dirty:      2652 kB",
   "Swap:                102 kB",
   "Locked:             2652 kB",
   "VmFlags: rd wr mr mw me ac "]

/-- The vmallocinfo content of the TestVmallocInfoAll test: four
ioremap-only lines, one pages=1 line, one pages=6 line. -/
def vmallocAllLines : List String :=
  ["0x0000000000000000-0x0000000000000000   69632 of_iomap+0x78/0xb0 phys=17a00000 ioremap",
   "0x0000000000000000-0x0000000000000000    8192 of_iomap+0x78/0xb0 phys=b220000 ioremap",
   "0x0000000000000000-0x0000000000000000    8192 of_iomap+0x78/0xb0 phys=17c90000 ioremap",
   "0x0000000000000000-0x0000000000000000    8192 of_iomap+0x78/0xb0 phys=17ca0000 ioremap",
   "0x0000000000000000-0x0000000000000000    8192 drm_property_create_blob+0x44/0xec pages=1 vmalloc",
   "0x0000000000000000-0x0000000000000000   28672 pktlog_alloc_buf+0xc4/0x15c [wlan] pages=6 vmalloc"]

/-- The ten 4096-byte buffers of the TestDmabufHeapTotalExportedKb test:
inode numbers 74831 to 74840, the odd ones exported by system, the even
ones by other. -/
def dmabufTestBuffers : List DmabufBuffer :=
  [{ exporter_name := "system", size := 4096 },
   { exporter_name := "other", size := 4096 },
   { exporter_name := "system", size := 4096 },
   { exporter_name := "other", size := 4096 },
   { exporter_name := "system", size := 4096 },
   { exporter_name := "other", size := 4096 },
   { exporter_name := "system", size := 4096 },
   { exporter_name := "other", size := 4096 },
   { exporter_name := "system", size := 4096 },
   { exporter_name := "other", size := 4096 }]

/-- A two-record extended-format input whose second record is the
vsyscall pseudo-mapping, as in the smaps_short test data. -/
def vsyscallExampleLines : List String :=
  ["7007f85b0000-7007f8b9b000 r-xp 001ee000 fd:00 1537              /system/lib64/libhwui.so",
   "Size:               6060 kB",
   "Rss:                4132 kB",
   "Pss:                1274 kB",
   "Shared_Clean:       4132 kB",
   "ffffffffff600000-ffffffffff601000 r-xp 00000000 00:00 0                  [vsyscall]",
   "Size:                  4 kB",
   "Rss:                   0 kB"]

/-- The vsyscall-free record parsed from smapsSingleLines. -/
def smapsSingleVma : Vma :=
  { start := 314572800, endAddr := 323223552, offset := 0, flags := 3,
    is_shared := false, inode := 0,
    name := "[anon:dalvik-main space (region space)]",
    usage := { vss := 8448, rss := 2652, pss := 2652, uss := 2736,
               swap := 102, swap_pss := 70, private_clean := 84,
               private_dirty := 2652, shared_clean := 840,
               shared_dirty := 40 } }

/-- A finalized record derives its USS from its private fields. -/
lemma finalizeVma_uss (v : Vma) :
    (finalizeVma v).usage.uss =
      (finalizeVma v).usage.private_clean + (finalizeVma v).usage.private_dirty := by
  simp [finalizeVma]

/-- Every record in the output list of one parsing step was already in
the input list or is a finalized record. -/
lemma mem_vmaStep_snd (st : Option Vma × List Vma) (line : String) :
    ∀ v ∈ (vmaStep st line).2, v ∈ st.2 ∨ ∃ c, v = finalizeVma c := by
  rcases st with ⟨cur, acc⟩
  intro v hv
  rcases h1 : parseVmaHeader line.data with _ | nv
  · rcases h2 : parseSmapsField line.data with _ | kn
    · simp only [vmaStep, h1, h2] at hv
      exact Or.inl hv
    · rcases cur with _ | c <;> simp only [vmaStep, h1, h2] at hv <;> exact Or.inl hv
  · rcases cur with _ | c
    · simp only [vmaStep, h1] at hv
      exact Or.inl hv
    · simp only [vmaStep, h1, List.mem_append, List.mem_singleton] at hv
      rcases hv with hv | hv
      · exact Or.inl hv
      · exact Or.inr ⟨c, hv⟩

/-- Every record in the output list of the whole fold was already in the
initial list or is a finalized record. -/
lemma mem_vmaStep_foldl (lines : List String) (st : Option Vma × List Vma) :
    ∀ v ∈ (lines.foldl vmaStep st).2, v ∈ st.2 ∨ ∃ c, v = finalizeVma c := by
  induction lines generalizing st with
  | nil => exact fun v hv => Or.inl hv
  | cons l ls ih =>
    intro v hv
    rcases ih (vmaStep st l) v hv with h | h
    · exact mem_vmaStep_snd st l v h
    · exact Or.inr h

/-- Every record enumerated from an extended-format input is a
finalized record. -/
lemma mem_forEach_finalized (lines : List String) :
    ∀ v ∈ ForEachVmaFromLines lines, ∃ c, v = finalizeVma c := by
  intro v hv
  unfold ForEachVmaFromLines at hv
  rcases hst : lines.foldl vmaStep (none, []) with ⟨cur, acc⟩
  rw [hst] at hv
  have hacc : ∀ w ∈ acc, w ∈ ([] : List Vma) ∨ ∃ c, w = finalizeVma c := by
    intro w hw
    have := mem_vmaStep_foldl lines (none, []) w
    rw [hst] at this
    exact this hw
  rcases cur with _ | c
  · rcases hacc v hv with h | h
    · simp at h
    · exact h
  · simp only [List.mem_append, List.mem_singleton] at hv
    rcases hv with hv | hv
    · rcases hacc v hv with h | h
      · simp at h
      · exact h
    · exact ⟨c, hv⟩

/-- C1: every VMA or aggregate record parsed from an extended-format
(smaps or smaps_rollup) input satisfies uss = private_clean +
private_dirty; in particular the rollup input with Private_Clean 90472
and Private_Dirty 64016 yields uss 154488, and the smaps input with
Private_Clean 84 and Private_Dirty 2652 yields uss 2736. -/
theorem claim_C1_uss_is_private_clean_add_private_dirty :
    (∀ (lines : List String), ∀ v ∈ ForEachVmaFromLines lines,
        v.usage.uss = v.usage.private_clean + v.usage.private_dirty) ∧
    (∀ (lines : List String),
        (SmapsOrRollupFromLines lines).uss =
          (SmapsOrRollupFromLines lines).private_clean +
            (SmapsOrRollupFromLines lines).private_dirty) ∧
    (SmapsOrRollupFromLines rollupLines).uss = 154488 ∧
    (SmapsOrRollupFromLines rollupLines).private_clean = 90472 ∧
    (SmapsOrRollupFromLines rollupLines).private_dirty = 64016 ∧
    (SmapsOrRollupFromLines smapsSingleLines).uss = 2736 ∧
    (SmapsOrRollupFromLines smapsSingleLines).private_clean = 84 ∧
    (SmapsOrRollupFromLines smapsSingleLines).private_dirty = 2652 := by
  refine ⟨?_, ?_, by decide, by decide, by decide, by decide, by decide, by decide⟩
  · intro lines v hv
    rcases mem_forEach_finalized lines v hv with ⟨c, rfl⟩
    exact finalizeVma_uss c
  · intro lines
    simp [SmapsOrRollupFromLines]

/-- Witness for C1: the record parsed from the concrete smaps input is
enumerated and satisfies the USS derivation. -/
theorem claim_C1_witness :
    smapsSingleVma ∈ ForEachVmaFromLines smapsSingleLines ∧
      smapsSingleVma.usage.uss =
        smapsSingleVma.usage.private_clean + smapsSingleVma.usage.private_dirty := by
  have hmem : smapsSingleVma ∈ ForEachVmaFromLines smapsSingleLines := by decide
  exact ⟨hmem,
    claim_C1_uss_is_private_clean_add_private_dirty.1 smapsSingleLines smapsSingleVma hmem⟩

/-- Folding fieldwise addition of usages distributes over any additive
projection of the tally. -/
lemma foldl_addUsage_proj (f : MemUsage → Nat)
    (hf : ∀ a b, f (addUsage a b) = f a + f b)
    (vs : List Vma) (mu : MemUsage) :
    f (vs.foldl (fun m v => addUsage m v.usage) mu) =
      f mu + (vs.map (fun v => f v.usage)).sum := by
  induction vs generalizing mu with
  | nil => simp
  | cons v vs ih =>
    simp only [List.foldl_cons, List.map_cons, List.sum_cons]
    rw [ih, hf]
    omega

/-- C2: with aggregation enabled, the process-level aggregate of every
MemUsage field equals the sum of that field over all VMAs collected from
the same extended-format input, on either architecture. -/
theorem claim_C2_aggregate_is_fieldwise_sum :
    ∀ (isX86_64 : Bool) (lines : List String),
      (SmapsUsageFromLines isX86_64 lines).vss =
        ((SmapsFromLines isX86_64 lines).map (fun v => v.usage.vss)).sum ∧
      (SmapsUsageFromLines isX86_64 lines).rss =
        ((SmapsFromLines isX86_64 lines).map (fun v => v.usage.rss)).sum ∧
      (SmapsUsageFromLines isX86_64 lines).pss =
        ((SmapsFromLines isX86_64 lines).map (fun v => v.usage.pss)).sum ∧
      (SmapsUsageFromLines isX86_64 lines).uss =
        ((SmapsFromLines isX86_64 lines).map (fun v => v.usage.uss)).sum ∧
      (SmapsUsageFromLines isX86_64 lines).swap =
        ((SmapsFromLines isX86_64 lines).map (fun v => v.usage.swap)).sum ∧
      (SmapsUsageFromLines isX86_64 lines).swap_pss =
        ((SmapsFromLines isX86_64 lines).map (fun v => v.usage.swap_pss)).sum ∧
      (SmapsUsageFromLines isX86_64 lines).private_clean =
        ((SmapsFromLines isX86_64 lines).map (fun v => v.usage.private_clean)).sum ∧
      (SmapsUsageFromLines isX86_64 lines).private_dirty =
        ((SmapsFromLines isX86_64 lines).map (fun v => v.usage.private_dirty)).sum ∧
      (SmapsUsageFromLines isX86_64 lines).shared_clean =
        ((SmapsFromLines isX86_64 lines).map (fun v => v.usage.shared_clean)).sum ∧
      (SmapsUsageFromLines isX86_64 lines).shared_dirty =
        ((SmapsFromLines isX86_64 lines).map (fun v => v.usage.shared_dirty)).sum := by
  intro x lines
  unfold SmapsUsageFromLines
  refine ⟨?_, ?_, ?_, ?_, ?_, ?_, ?_, ?_, ?_, ?_⟩
  · simpa using foldl_addUsage_proj (fun m => m.vss) (fun a b => by simp [addUsage]) (SmapsFromLines x lines) {}
  · simpa using foldl_addUsage_proj (fun m => m.rss) (fun a b => by simp [addUsage]) (SmapsFromLines x lines) {}
  · simpa using foldl_addUsage_proj (fun m => m.pss) (fun a b => by simp [addUsage]) (SmapsFromLines x lines) {}
  · simpa using foldl_addUsage_proj (fun m => m.uss) (fun a b => by simp [addUsage]) (SmapsFromLines x lines) {}
  · simpa using foldl_addUsage_proj (fun m => m.swap) (fun a b => by simp [addUsage]) (SmapsFromLines x lines) {}
  · simpa using foldl_addUsage_proj (fun m => m.swap_pss) (fun a b => by simp [addUsage]) (SmapsFromLines x lines) {}
  · simpa using foldl_addUsage_proj (fun m => m.private_clean) (fun a b => by simp [addUsage]) (SmapsFromLines x lines) {}
  · simpa using foldl_addUsage_proj (fun m => m.private_dirty) (fun a b => by simp [addUsage]) (SmapsFromLines x lines) {}
  · simpa using foldl_addUsage_proj (fun m => m.shared_clean) (fun a b => by simp [addUsage]) (SmapsFromLines x lines) {}
  · simpa using foldl_addUsage_proj (fun m => m.shared_dirty) (fun a b => by simp [addUsage]) (SmapsFromLines x lines) {}

/-- Accumulating any key other than Pss leaves the pss field alone. -/
lemma accumAggregate_pss_of_ne (mu : MemUsage) (k : SmapsKey) (v : Nat)
    (hk : k ≠ SmapsKey.pss) : (accumAggregate mu k v).pss = mu.pss := by
  cases k <;> simp [accumAggregate] at hk ⊢

/-- The key recognizer maps a token to the Pss key exactly when the
token is the Pss key token. -/
lemma keyOfTok_eq_pss (t : List Char) :
    keyOfTok t = some SmapsKey.pss ↔ t = "Pss:".data := by
  unfold keyOfTok
  split_ifs with h1 h2 h3 h4 h5 h6 h7 h8 h9 <;> simp_all

/-- One aggregate-parse step advances the pss field by exactly the value
of the line's Pss detail, if any. -/
lemma smapsAggStep_pss (mu : MemUsage) (line : String) :
    (smapsAggStep mu line).pss = mu.pss + (pssLineValue line.data).getD 0 := by
  unfold smapsAggStep parseSmapsField pssLineValue
  by_cases h : takeTok line.data = "Pss:".data
  · rw [h]
    have hk : keyOfTok "Pss:".data = some SmapsKey.pss := by decide
    rw [hk]
    rcases hv : parseDecNat (takeTok (restAfterTok line.data)) with _ | v <;>
      simp [hv, accumAggregate]
  · simp only [if_neg h]
    rcases hk : keyOfTok (takeTok line.data) with _ | k
    · simp
    · have hkp : k ≠ SmapsKey.pss := by
        intro hkk
        exact h ((keyOfTok_eq_pss (takeTok line.data)).1 (hkk ▸ hk))
      rcases hv : parseDecNat (takeTok (restAfterTok line.data)) with _ | v
      · simp
      · simp [accumAggregate_pss_of_ne mu k v hkp]

/-- The whole aggregate fold advances the pss field by the sum of the
Pss detail values of the input. -/
lemma foldl_smapsAggStep_pss (lines : List String) (mu : MemUsage) :
    (lines.foldl smapsAggStep mu).pss =
      mu.pss + (lines.map (fun l => (pssLineValue l.data).getD 0)).sum := by
  induction lines generalizing mu with
  | nil => simp
  | cons l ls ih =>
    simp only [List.foldl_cons, List.map_cons, List.sum_cons]
    rw [ih, smapsAggStep_pss]
    omega

/-- The reduced scan accumulates exactly the sum of the Pss detail
values. -/
lemma pssOnly_foldl (lines : List String) (acc : Nat) :
    (lines.foldl (fun a l =>
        match pssLineValue l.data with
        | some v => a + v
        | none => a) acc) =
      acc + (lines.map (fun l => (pssLineValue l.data).getD 0)).sum := by
  induction lines generalizing acc with
  | nil => simp
  | cons l ls ih =>
    rcases hv : pssLineValue l.data with _ | v
    · simp only [List.foldl_cons, List.map_cons, List.sum_cons, hv]
      rw [ih]
      simp
    · simp only [List.foldl_cons, List.map_cons, List.sum_cons, hv, Option.getD_some]
      rw [ih]
      rw [Nat.add_assoc]

/-- C3: the reduced Pss-only parser returns the sum of the values of all
Pss detail lines of the input, hence equals the pss aggregate of the
full extended parser on the same content; on the single-record rollup
input it is that record's Pss, 202052. -/
theorem claim_C3_pss_only_scan_equals_full_parse :
    (∀ (lines : List String),
        SmapsOrRollupPssFromLines lines =
          (lines.map (fun l => (pssLineValue l.data).getD 0)).sum) ∧
    (∀ (lines : List String),
        SmapsOrRollupPssFromLines lines = (SmapsOrRollupFromLines lines).pss) ∧
    SmapsOrRollupPssFromLines rollupLines = 202052 ∧
    SmapsOrRollupPssFromLines smapsSingleLines = 2652 := by
  have hsum : ∀ (lines : List String),
      SmapsOrRollupPssFromLines lines =
        (lines.map (fun l => (pssLineValue l.data).getD 0)).sum := by
    intro lines
    unfold SmapsOrRollupPssFromLines
    simpa using pssOnly_foldl lines 0
  refine ⟨hsum, ?_, by decide, by decide⟩
  intro lines
  rw [hsum]
  have hproj : (SmapsOrRollupFromLines lines).pss = (lines.foldl smapsAggStep {}).pss := by
    simp [SmapsOrRollupFromLines]
  rw [hproj]
  simpa using (foldl_smapsAggStep_pss lines {}).symm

/-- The vmallocinfo content of the TestVmallocInfoNoMemory test: only
ioremap lines, none carrying a pages token. -/
def vmallocIoremapLines : List String :=
  ["0x0000000000000000-0x0000000000000000   69632 of_iomap+0x78/0xb0 phys=17a00000 ioremap",
   "0x0000000000000000-0x0000000000000000    8192 of_iomap+0x78/0xb0 phys=b220000 ioremap",
   "0x0000000000000000-0x0000000000000000    8192 of_iomap+0x78/0xb0 phys=17c90000 ioremap",
   "0x0000000000000000-0x0000000000000000    8192 of_iomap+0x78/0xb0 phys=17ca0000 ioremap"]

/-- A line's vmalloc contribution as a match on its pages token equals
its page count times the page size. -/
lemma vmallocLine_contrib (cs : List Char) (ps : Nat) :
    (match linePages cs with
      | some n => n * ps
      | none => 0) = (linePages cs).getD 0 * ps := by
  rcases linePages cs <;> simp

/-- The vmalloc accumulation fold equals its starting value plus the sum
of the per-line page contributions. -/
lemma readVmalloc_foldl (lines : List String) (ps acc : Nat) :
    (lines.foldl (fun a l =>
        match linePages l.data with
        | some n => a + n * ps
        | none => a) acc) =
      acc + (lines.map (fun l => (linePages l.data).getD 0 * ps)).sum := by
  induction lines generalizing acc with
  | nil => simp
  | cons l ls ih =>
    rcases hv : linePages l.data with _ | n
    · simp only [List.foldl_cons, List.map_cons, List.sum_cons, hv, Option.getD_none]
      rw [ih]
      simp
    · simp only [List.foldl_cons, List.map_cons, List.sum_cons, hv, Option.getD_some]
      rw [ih]
      rw [Nat.add_assoc]

/-- Summing the per-line contributions factors out the page size. -/
lemma vmalloc_map_sum_mul (lines : List String) (ps : Nat) :
    (lines.map (fun l => (linePages l.data).getD 0 * ps)).sum =
      (lines.map (fun l => (linePages l.data).getD 0)).sum * ps := by
  induction lines with
  | nil => simp
  | cons l ls ih => simp [ih, Nat.add_mul]

/-- C4: ReadVmallocInfo returns the sum over all lines of N times the
page size for the lines carrying a pages=N token and 0 for every line
without such a token regardless of the size field present; the four
ioremap-only lines total 0, and with one pages=1 line and one pages=6
line added the total is 7 times the page size. -/
theorem claim_C4_vmalloc_sums_pages_token_lines :
    (∀ (lines : List String) (pageSize : Nat),
        ReadVmallocInfoLines lines pageSize =
          (lines.map (fun l =>
            match linePages l.data with
            | some n => n * pageSize
            | none => 0)).sum) ∧
    (∀ (pageSize : Nat), ReadVmallocInfoLines vmallocIoremapLines pageSize = 0) ∧
    (∀ (pageSize : Nat), ReadVmallocInfoLines vmallocAllLines pageSize = 7 * pageSize) := by
  refine ⟨?_, ?_, ?_⟩
  · intro lines ps
    unfold ReadVmallocInfoLines
    rw [readVmalloc_foldl]
    simp [vmallocLine_contrib]
  · intro ps
    unfold ReadVmallocInfoLines
    rw [readVmalloc_foldl, vmalloc_map_sum_mul]
    have h0 : ((vmallocIoremapLines.map (fun l => (linePages l.data).getD 0)).sum) = 0 := by
      decide
    rw [h0]
    simp
  · intro ps
    unfold ReadVmallocInfoLines
    rw [readVmalloc_foldl, vmalloc_map_sum_mul]
    have h7 : ((vmallocAllLines.map (fun l => (linePages l.data).getD 0)).sum) = 7 := by
      decide
    rw [h7]
    simp

/-- One heap's accumulation equals the sum of the kilobyte sizes of
exactly the buffers naming that heap as exporter. -/
lemma dmabufHeapStep_eq (buffers : List DmabufBuffer) (acc : Nat) (heap : String) :
    dmabufHeapStep buffers acc heap =
      acc + ((buffers.filter (fun b => b.exporter_name == heap)).map
        (fun b => b.size / 1024)).sum := by
  unfold dmabufHeapStep
  induction buffers generalizing acc with
  | nil => simp
  | cons b bs ih =>
    rcases hb : (b.exporter_name == heap) with _ | _
    · simp only [List.foldl_cons, hb, List.filter_cons, Bool.false_eq_true, if_false,
        cond_false]
      rw [ih]
    · simp only [List.foldl_cons, hb, List.filter_cons, if_true, cond_true, List.map_cons,
        List.sum_cons]
      rw [ih]
      rw [Nat.add_assoc]

/-- The whole heap fold equals the sum over heap names of their
per-heap totals. -/
lemma readDmabuf_foldl (buffers : List DmabufBuffer) (hs : List String) (acc : Nat) :
    hs.foldl (dmabufHeapStep buffers) acc =
      acc + (hs.map (fun h =>
        ((buffers.filter (fun b => b.exporter_name == h)).map
          (fun b => b.size / 1024)).sum)).sum := by
  induction hs generalizing acc with
  | nil => simp
  | cons h hs ih =>
    simp only [List.foldl_cons, List.map_cons, List.sum_cons]
    rw [ih, dmabufHeapStep_eq]
    rw [Nat.add_assoc]

/-- C5: ReadDmabufHeapTotalExportedKb sums, for each heap name of the
heap-root directory, size/1024 with integer division over exactly the
buffer entries whose exporter_name equals that heap name, excluding
entries naming any other exporter; the ten 4096-byte test buffers of
which five name exporter system yield 20 kB for heap system. -/
theorem claim_C5_dmabuf_total_exported_kb :
    (∀ (heapNames : List String) (buffers : List DmabufBuffer),
        ReadDmabufHeapTotalExportedKb heapNames buffers =
          (heapNames.map (fun h =>
            ((buffers.filter (fun b => b.exporter_name == h)).map
              (fun b => b.size / 1024)).sum)).sum) ∧
    ReadDmabufHeapTotalExportedKb ["system"] dmabufTestBuffers = 20 := by
  refine ⟨?_, by decide⟩
  intro hs bs
  unfold ReadDmabufHeapTotalExportedKb
  rw [readDmabuf_foldl]
  simp

/-- C6: for every VMA with end above start, a successful PageMap call
returns a sequence whose length is the range divided by the page size,
whatever the page-table content of that call is. -/
theorem claim_C6_pagemap_length (pageSize : Nat) (file : List Nat) (v : Vma)
    (pm : List Nat) (hrange : v.start < v.endAddr)
    (hok : pageMapFromFile pageSize file v = some pm) :
    pm.length = (v.endAddr - v.start) / pageSize := by
  simp only [pageMapFromFile] at hok
  by_cases h : ((file.drop (v.start / pageSize)).take
      ((v.endAddr - v.start) / pageSize)).length = (v.endAddr - v.start) / pageSize
  · rw [if_pos h] at hok
    cases hok
    exact h
  · rw [if_neg h] at hok
    cases hok

/-- A concrete 20-page VMA used to witness the PageMap length law. -/
def pageMapTestVma : Vma :=
  { start := 4096, endAddr := 86016, offset := 0, flags := 3,
    is_shared := false, inode := 0, name := "", usage := {} }

/-- Witness for C6: a successful concrete PageMap call of a 20-page VMA
returns 20 entries. -/
theorem claim_C6_witness :
    pageMapTestVma.start < pageMapTestVma.endAddr ∧
    pageMapFromFile 4096 (List.replicate 25 0) pageMapTestVma =
      some (List.replicate 20 0) ∧
    (List.replicate 20 (0 : Nat)).length =
      (pageMapTestVma.endAddr - pageMapTestVma.start) / 4096 :=
  ⟨by decide, by decide,
    claim_C6_pagemap_length 4096 (List.replicate 25 0) pageMapTestVma
      (List.replicate 20 0) (by decide) (by decide)⟩

/-- A usage-filling pass in working-set mode never touches the regular
aggregate or the swap offsets. -/
lemma getUsageStats_wss_mode (p : ProcMemInfo) (ls : List String)
    (h : p.get_wss = true) :
    (p.getUsageStats ls).get_wss = true ∧ (p.getUsageStats ls).usage_ = p.usage_ ∧
      (p.getUsageStats ls).swap_offsets_ = p.swap_offsets_ := by
  simp [ProcMemInfo.getUsageStats, h]

/-- A usage-filling pass in regular mode never touches the working-set
aggregate. -/
lemma getUsageStats_usage_mode (p : ProcMemInfo) (ls : List String)
    (h : p.get_wss = false) :
    (p.getUsageStats ls).get_wss = false ∧ (p.getUsageStats ls).wss_ = p.wss_ := by
  simp [ProcMemInfo.getUsageStats, h]

/-- Any number of usage-filling passes in working-set mode leaves the
regular aggregate and the swap offsets where they were. -/
lemma foldl_fill_wss_mode (fills : List (List String)) (p : ProcMemInfo)
    (h : p.get_wss = true) :
    (fills.foldl ProcMemInfo.getUsageStats p).usage_ = p.usage_ ∧
      (fills.foldl ProcMemInfo.getUsageStats p).swap_offsets_ = p.swap_offsets_ := by
  induction fills generalizing p with
  | nil => exact ⟨rfl, rfl⟩
  | cons ls fills ih =>
    rcases getUsageStats_wss_mode p ls h with ⟨h1, h2, h3⟩
    rcases ih (p.getUsageStats ls) h1 with ⟨h4, h5⟩
    exact ⟨h4.trans h2, h5.trans h3⟩

/-- Any number of usage-filling passes in regular mode leaves the
working-set aggregate where it was. -/
lemma foldl_fill_usage_mode (fills : List (List String)) (p : ProcMemInfo)
    (h : p.get_wss = false) :
    (fills.foldl ProcMemInfo.getUsageStats p).wss_ = p.wss_ := by
  induction fills generalizing p with
  | nil => rfl
  | cons ls fills ih =>
    rcases getUsageStats_usage_mode p ls h with ⟨h1, h2⟩
    exact (ih (p.getUsageStats ls) h1).trans h2

/-- C7: the aggregate of the inactive mode always reads as all-zero: a
facade constructed in working-set mode has an all-zero Usage and an
empty SwapOffsets list, before and after any number of filling passes,
and one constructed in regular mode has an all-zero Wss likewise. -/
theorem claim_C7_inactive_view_reads_zero :
    ∀ (pid : Nat) (fills : List (List String)),
      (ProcMemInfo.construct pid true).Usage = emptyUsage ∧
      (ProcMemInfo.construct pid true).SwapOffsets = [] ∧
      (ProcMemInfo.construct pid false).Wss = emptyUsage ∧
      (fills.foldl ProcMemInfo.getUsageStats (ProcMemInfo.construct pid true)).Usage
        = emptyUsage ∧
      (fills.foldl ProcMemInfo.getUsageStats (ProcMemInfo.construct pid true)).SwapOffsets
        = [] ∧
      (fills.foldl ProcMemInfo.getUsageStats (ProcMemInfo.construct pid false)).Wss
        = emptyUsage := by
  intro pid fills
  have hw := foldl_fill_wss_mode fills (ProcMemInfo.construct pid true) rfl
  have hu := foldl_fill_usage_mode fills (ProcMemInfo.construct pid false) rfl
  exact ⟨rfl, rfl, rfl, hw.1, hw.2, hu⟩

/-- Every element of an all-zero positional array reads as zero. -/
lemma getD_replicate_zero (n i : Nat) : (List.replicate n (0 : Nat)).getD i 0 = 0 := by
  induction n generalizing i with
  | zero => simp [List.getD]
  | succ n ih =>
    cases i with
    | zero => simp [List.replicate]
    | succ i => simp [List.replicate, ih]

/-- C9: ReadMemInfo applied to an empty global tag file reports success
and every requested tag's value reads as zero. -/
theorem claim_C9_empty_meminfo_file :
    ∀ (tags : List String),
      (ReadMemInfoLines tags []).1 = true ∧
      (ReadMemInfoLines tags []).2 = List.replicate tags.length 0 ∧
      (∀ i : Nat, (ReadMemInfoLines tags []).2.getD i 0 = 0) := by
  intro tags
  exact ⟨rfl, rfl, fun i => getD_replicate_zero tags.length i⟩

/-- C8: the heap classifier reports through its out-parameter whether
the SwapPss key was found; when the key is absent every bucket's
swappedOutPss equals that bucket's swappedOut, and when it is present
swappedOutPss comes from the SwapPss values, as on the concrete smaps
input where swappedOut is 102 but swappedOutPss is the measured 70. -/
theorem claim_C8_swappss_fallback :
    (∀ (classify : String → Nat) (swappable : String → Bool) (lines : List String),
        (ExtractAndroidHeapStatsFromLines classify swappable lines).2 =
          hasSwapPssKey lines) ∧
    (∀ (classify : String → Nat) (swappable : String → Bool) (lines : List String),
        hasSwapPssKey lines = false →
          ∀ j : Nat,
            ((ExtractAndroidHeapStatsFromLines classify swappable lines).1 j).swappedOutPss =
              ((ExtractAndroidHeapStatsFromLines classify swappable lines).1 j).swappedOut) ∧
    (ExtractAndroidHeapStatsFromLines (fun _ => 0) (fun _ => false) smapsSingleLines).2
      = true ∧
    ((ExtractAndroidHeapStatsFromLines (fun _ => 0) (fun _ => false) smapsSingleLines).1 0).swappedOut
      = 102 ∧
    ((ExtractAndroidHeapStatsFromLines (fun _ => 0) (fun _ => false) smapsSingleLines).1 0).swappedOutPss
      = 70 ∧
    (ExtractAndroidHeapStatsFromLines (fun _ => 0) (fun _ => false) smapsNoSwapPssLines).2
      = false ∧
    ((ExtractAndroidHeapStatsFromLines (fun _ => 0) (fun _ => false) smapsNoSwapPssLines).1 0).swappedOut
      = 102 ∧
    ((ExtractAndroidHeapStatsFromLines (fun _ => 0) (fun _ => false) smapsNoSwapPssLines).1 0).swappedOutPss
      = 102 := by
  refine ⟨?_, ?_, by decide, by decide, by decide, by decide, by decide, by decide⟩
  · intro classify swappable lines
    simp [ExtractAndroidHeapStatsFromLines]
  · intro classify swappable lines hfound j
    simp [ExtractAndroidHeapStatsFromLines, hfound]

/-- Witness for C8: on the concrete SwapPss-free input the fallback sets
the catch-all bucket's swappedOutPss to its swappedOut. -/
theorem claim_C8_witness :
    hasSwapPssKey smapsNoSwapPssLines = false ∧
    ((ExtractAndroidHeapStatsFromLines (fun _ => 0) (fun _ => false)
        smapsNoSwapPssLines).1 0).swappedOutPss =
      ((ExtractAndroidHeapStatsFromLines (fun _ => 0) (fun _ => false)
        smapsNoSwapPssLines).1 0).swappedOut :=
  ⟨by decide,
    claim_C8_swappss_fallback.2.1 (fun _ => 0) (fun _ => false) smapsNoSwapPssLines
      (by decide) 0⟩

/-- The net record count of a parse state: the emitted records plus the
record still under construction. -/
def stRecordCount : Option Vma × List Vma → Nat
  | (some _, acc) => acc.length + 1
  | (none, acc) => acc.length

/-- One parsing step raises the net record count exactly on header
lines. -/
lemma stRecordCount_vmaStep (st : Option Vma × List Vma) (line : String) :
    stRecordCount (vmaStep st line) =
      stRecordCount st + (if (parseVmaHeader line.data).isSome then 1 else 0) := by
  rcases st with ⟨cur, acc⟩
  rcases h1 : parseVmaHeader line.data with _ | nv
  · rcases h2 : parseSmapsField line.data with _ | kn
    · simp [vmaStep, h1, h2, stRecordCount]
    · rcases cur with _ | c <;> simp [vmaStep, h1, h2, stRecordCount]
  · rcases cur with _ | c <;> simp [vmaStep, h1, stRecordCount]

/-- The net record count after the whole fold is the number of header
lines of the input. -/
lemma stRecordCount_foldl (lines : List String) (st : Option Vma × List Vma) :
    stRecordCount (lines.foldl vmaStep st) =
      stRecordCount st + lines.countP (fun l => (parseVmaHeader l.data).isSome) := by
  induction lines generalizing st with
  | nil => simp
  | cons l ls ih =>
    simp only [List.foldl_cons, List.countP_cons]
    rw [ih, stRecordCount_vmaStep]
    omega

/-- The enumeration emits exactly one record per header line. -/
lemma forEach_length (lines : List String) :
    (ForEachVmaFromLines lines).length =
      lines.countP (fun l => (parseVmaHeader l.data).isSome) := by
  have h := stRecordCount_foldl lines (none, [])
  unfold ForEachVmaFromLines
  rcases hst : lines.foldl vmaStep (none, []) with ⟨cur, acc⟩
  rw [hst] at h
  rcases cur with _ | c <;> simp [stRecordCount] at h <;> simp [List.length_append, h]

/-- The conditional-append collect fold is a filter. -/
lemma smapsCollect_foldl (x : Bool) (vs acc : List Vma) :
    vs.foldl (smapsCollectStep x) acc =
      acc ++ vs.filter (fun v => !(x && v.name == "[vsyscall]")) := by
  induction vs generalizing acc with
  | nil => simp
  | cons v vs ih =>
    rcases hc : (x && v.name == "[vsyscall]") with _ | _
    · simp only [List.foldl_cons, smapsCollectStep, hc, Bool.false_eq_true, if_false,
        List.filter_cons, Bool.not_false, cond_true]
      rw [ih]
      simp
    · simp only [List.foldl_cons, smapsCollectStep, hc, if_true, List.filter_cons,
        Bool.not_true, cond_false]
      exact ih acc

/-- C10: Smaps and ForEachVmaFromFile do not enumerate the same VMAs on
every input: the enumeration emits one record per header line, vsyscall
included, while on x86-64 Smaps returns the enumeration with the
vsyscall-named records filtered out, so the concrete two-record input
yields counts 2 and 1. -/
theorem claim_C10_smaps_vs_foreach_vsyscall :
    (∀ (lines : List String),
        SmapsFromLines true lines =
          (ForEachVmaFromLines lines).filter (fun v => !(v.name == "[vsyscall]"))) ∧
    (∀ (lines : List String),
        (ForEachVmaFromLines lines).length =
          lines.countP (fun l => (parseVmaHeader l.data).isSome)) ∧
    ((ForEachVmaFromLines vsyscallExampleLines).map (fun v => v.name)) =
      ["/system/lib64/libhwui.so", "[vsyscall]"] ∧
    ((SmapsFromLines true vsyscallExampleLines).map (fun v => v.name)) =
      ["/system/lib64/libhwui.so"] ∧
    (ForEachVmaFromLines vsyscallExampleLines).length = 2 ∧
    (SmapsFromLines true vsyscallExampleLines).length = 1 := by
  refine ⟨?_, forEach_length, by decide, by decide, by decide, by decide⟩
  intro lines
  unfold SmapsFromLines
  rw [smapsCollect_foldl]
  simp

end Meminfo
